import Mathlib

/-!
Shallow embedding of the `digest` Rust library (`src/lib.rs`).

The library exposes:
* `DigestSha256`, a 32-byte digest value,
* `DigestSha256::from_digestable`, which folds the byte-span sequence of a
  `Digestable` value through a streaming SHA-256 accumulator,
* `FromStr for DigestSha256`, which decodes a 64-character hexadecimal string
  via `hex::decode_to_slice`,
* the `Digestable` trait together with its built-in implementations for
  `String`, `f64` (through the `OwnedOnce` iterator) and pairs
  (through `std::iter::Chain`).

Bytes are modelled as natural numbers below 256, byte slices as `List Nat`,
and Rust iterators as explicit step functions on a state type.  The `for`
loop of `from_digestable` is modelled with explicit fuel: a result of `none`
means the loop has not finished within `fuel` iterations, and the loop
terminates exactly when some fuel suffices.  The external SHA-256 primitive
(the `sha2` crate) is modelled as the standard FIPS 180-4 SHA-256 function,
and the external `hex` crate's `decode_to_slice` is modelled byte for byte.
-/

/-! ### Byte and word helpers -/

/-- Truncate to a 32-bit word. -/
def w32 (n : Nat) : Nat := n % 4294967296

/-- Bitwise xor on the low `k` bits, by digit recursion (kernel friendly). -/
def xorAux : Nat → Nat → Nat → Nat
  | 0, _, _ => 0
  | k + 1, n, m => (if n % 2 + m % 2 = 1 then 1 else 0) + 2 * xorAux k (n / 2) (m / 2)

/-- Bitwise xor of two 32-bit words. -/
def xor32 (n m : Nat) : Nat := xorAux 32 n m

/-- Bitwise and on the low `k` bits, by digit recursion. -/
def andAux : Nat → Nat → Nat → Nat
  | 0, _, _ => 0
  | k + 1, n, m => n % 2 * (m % 2) + 2 * andAux k (n / 2) (m / 2)

/-- Bitwise and of two 32-bit words. -/
def and32 (n m : Nat) : Nat := andAux 32 n m

/-- Right rotation of a 32-bit word by `n` bits. -/
def rotr32 (n x : Nat) : Nat := w32 (x / 2 ^ n + x % 2 ^ n * 2 ^ (32 - n))

/-- Logical right shift. -/
def shr (n x : Nat) : Nat := x / 2 ^ n

/-- Big-endian bytes of a 64-bit quantity, as produced by `f64::to_be_bytes`
and by the SHA-256 length field. -/
def beBytes8 (x : Nat) : List Nat :=
  [x / 2 ^ 56 % 256, x / 2 ^ 48 % 256, x / 2 ^ 40 % 256, x / 2 ^ 32 % 256,
   x / 2 ^ 24 % 256, x / 2 ^ 16 % 256, x / 2 ^ 8 % 256, x % 256]

/-! ### SHA-256

Modelled from the spec: the cryptographic hash primitive (the external
`sha2::Sha256` collaborator) is a streaming hash with
`update(bytes)` / `finalize() -> 32-byte output`; mathematically the result
is the FIPS 180-4 SHA-256 of the concatenation of all updated bytes, which
is what is defined here. -/

def ch (x y z : Nat) : Nat := xor32 (and32 x y) (and32 (4294967295 - w32 x) z)

def maj (x y z : Nat) : Nat := xor32 (xor32 (and32 x y) (and32 x z)) (and32 y z)

def bigSigma0 (x : Nat) : Nat := xor32 (xor32 (rotr32 2 x) (rotr32 13 x)) (rotr32 22 x)

def bigSigma1 (x : Nat) : Nat := xor32 (xor32 (rotr32 6 x) (rotr32 11 x)) (rotr32 25 x)

def smallSigma0 (x : Nat) : Nat := xor32 (xor32 (rotr32 7 x) (rotr32 18 x)) (shr 3 x)

def smallSigma1 (x : Nat) : Nat := xor32 (xor32 (rotr32 17 x) (rotr32 19 x)) (shr 10 x)

/-- The 64 SHA-256 round constants (decimal). -/
def sha256K : List Nat :=
  [1116352408, 1899447441, 3049323471, 3921009573, 961987163,
   1508970993, 2453635748, 2870763221, 3624381080, 310598401,
   607225278, 1426881987, 1925078388, 2162078206, 2614888103,
   3248222580, 3835390401, 4022224774, 264347078, 604807628,
   770255983, 1249150122, 1555081692, 1996064986, 2554220882,
   2821834349, 2952996808, 3210313671, 3336571891, 3584528711,
   113926993, 338241895, 666307205, 773529912, 1294757372,
   1396182291, 1695183700, 1986661051, 2177026350, 2456956037,
   2730485921, 2820302411, 3259730800, 3345764771, 3516065817,
   3600352804, 4094571909, 275423344, 430227734, 506948616,
   659060556, 883997877, 958139571, 1322822218, 1537002063,
   1747873779, 1955562222, 2024104815, 2227730452, 2361852424,
   2428436474, 2756734187, 3204031479, 3329325298]

/-- The SHA-256 initial hash state (decimal). -/
def sha256H0 : List Nat :=
  [1779033703, 3144134277, 1013904242, 2773480762, 1359893119,
   2600822924, 528734635, 1541459225]

/-- Group big-endian bytes into 32-bit words. -/
def bytesToWords : List Nat → List Nat
  | a :: b :: c :: d :: rest =>
      (a * 16777216 + b * 65536 + c * 256 + d) :: bytesToWords rest
  | _ => []

/-- One step of the message-schedule extension: append the next word. -/
def extendStep (w : List Nat) : List Nat :=
  let n := w.length
  w ++ [w32 (w.getD (n - 16) 0 + smallSigma0 (w.getD (n - 15) 0) +
             w.getD (n - 7) 0 + smallSigma1 (w.getD (n - 2) 0))]

/-- Iterate the schedule extension `k` times. -/
def extendWAux : Nat → List Nat → List Nat
  | 0, w => w
  | k + 1, w => extendWAux k (extendStep w)

/-- Extend a 16-word block to the 64-word message schedule. -/
def extendW (w : List Nat) : List Nat := extendWAux 48 w

/-- One SHA-256 compression round on the 8-word working state. -/
def compressRound (st : List Nat) (k : Nat) (w : Nat) : List Nat :=
  match st with
  | [a, b, c, d, e, f, g, h] =>
      let t1 := w32 (h + bigSigma1 e + ch e f g + k + w)
      let t2 := w32 (bigSigma0 a + maj a b c)
      [w32 (t1 + t2), a, b, c, w32 (d + t1), e, f, g]
  | _ => st

/-- Compress one 16-word block into the hash state. -/
def compressBlock (hst : List Nat) (block : List Nat) : List Nat :=
  let sched := extendW block
  let st := (List.zip sha256K sched).foldl
    (fun s kw => compressRound s kw.1 kw.2) hst
  (List.zip hst st).map (fun p => w32 (p.1 + p.2))

/-- A 32-bit word as 4 big-endian bytes. -/
def wordToBytes (x : Nat) : List Nat :=
  [x / 16777216 % 256, x / 65536 % 256, x / 256 % 256, x % 256]

/-- SHA-256 padding: `0x80`, zeros to 56 mod 64, then the 64-bit bit length. -/
def sha256pad (msg : List Nat) : List Nat :=
  msg ++ 0x80 :: List.replicate ((64 - (msg.length + 9) % 64) % 64) 0 ++
    beBytes8 (8 * msg.length % 2 ^ 64)

/-- Compress `n` consecutive 16-word blocks of `ws` into the hash state. -/
def processBlocks : Nat → List Nat → List Nat → List Nat
  | 0, hst, _ => hst
  | n + 1, hst, ws => processBlocks n (compressBlock hst (ws.take 16)) (ws.drop 16)

/-- FIPS 180-4 SHA-256 of a byte string. -/
def sha256 (msg : List Nat) : List Nat :=
  let ws := bytesToWords (sha256pad msg)
  (processBlocks (ws.length / 16) sha256H0 ws).map wordToBytes |>.flatten

/-! ### The digest value and hex decoding

`DigestSha256` wraps a 32-byte array.  `FromStr for DigestSha256` calls
`hex::decode_to_slice(s, &mut decoded)` on a default-initialised 32-byte
array; the `hex` crate checks an even length, then that the input is exactly
twice the output length, then decodes nibble pairs, rejecting the first byte
outside `[0-9a-fA-F]`. -/

/-- `hex::FromHexError`. -/
inductive FromHexError : Type where
  | invalidHexCharacter (c : Nat) (index : Nat)
  | oddLength
  | invalidStringLength
deriving DecidableEq

instance {ε α : Type} [DecidableEq ε] [DecidableEq α] : DecidableEq (Except ε α) :=
  fun a b =>
    match a, b with
    | .ok x, .ok y =>
      if h : x = y then .isTrue (by rw [h]) else .isFalse (by simp [h])
    | .error x, .error y =>
      if h : x = y then .isTrue (by rw [h]) else .isFalse (by simp [h])
    | .ok _, .error _ => .isFalse (by simp)
    | .error _, .ok _ => .isFalse (by simp)

/-- The digest value: a 32-byte array (`GenericArray<u8, U32>`). -/
structure DigestSha256 : Type where
  bytes : List Nat
deriving DecidableEq

/-- `hex`'s `val`: the value of one hex-digit byte, in the source's match
order `A-F`, `a-f`, `0-9`. -/
def hexVal (c : Nat) : Option Nat :=
  if 65 ≤ c ∧ c ≤ 70 then some (c - 65 + 10)
  else if 97 ≤ c ∧ c ≤ 102 then some (c - 97 + 10)
  else if 48 ≤ c ∧ c ≤ 57 then some (c - 48)
  else none

/-- The decoding loop of `hex::decode_to_slice`: each output byte is
`val(high) << 4 | val(low)`, failing at the first invalid input byte. -/
def decodePairs : List Nat → Nat → Except FromHexError (List Nat)
  | [], _ => .ok []
  | [c], i => .error (.invalidHexCharacter c i)
  | c1 :: c2 :: rest, i =>
      match hexVal c1 with
      | none => .error (.invalidHexCharacter c1 i)
      | some hi =>
        match hexVal c2 with
        | none => .error (.invalidHexCharacter c2 (i + 1))
        | some lo => (decodePairs rest (i + 2)).map (fun bs => (hi * 16 + lo) :: bs)

/-- `hex::decode_to_slice` into a buffer of `outLen` bytes. -/
def decode_to_slice (s : List Nat) (outLen : Nat) : Except FromHexError (List Nat) :=
  if s.length % 2 ≠ 0 then .error .oddLength
  else if s.length / 2 ≠ outLen then .error .invalidStringLength
  else decodePairs s 0

/-- `FromStr for DigestSha256`: decode 64 hex characters into 32 bytes. -/
def DigestSha256.from_str (s : List Nat) : Except FromHexError DigestSha256 :=
  (decode_to_slice s 32).map DigestSha256.mk

/-- The UTF-8 bytes of an ASCII string literal, used for concrete inputs. -/
def asciiBytes (s : String) : List Nat := s.toList.map Char.toNat

/-! ### Rust iterators and the `Digestable` trait

A Rust `Iterator<Item = &[u8]>` is modelled as a state type with a step
function: `next` either yields a byte span and the successor state, or
signals exhaustion with `none`. -/

/-- Model of `Iterator<Item = &'a [u8]>`. -/
class RustIterator (σ : Type) where
  next : σ → Option (List Nat × σ)

/-- `std::iter::Once<&[u8]>`: holds an optional item, yields it once. -/
structure OnceIter : Type where
  item : Option (List Nat)

instance : RustIterator OnceIter where
  next it :=
    match it.item with
    | some s => some (s, ⟨none⟩)
    | none => none

/-- The source's `OwnedOnce` iterator: owns an 8-byte buffer `slice` and a
`slice_ref` field.  Its `next` assigns `slice_ref = Some(&self.slice)` and
returns `self.slice_ref` — it yields the buffer on EVERY call and never
returns `None`. -/
structure OwnedOnce : Type where
  slice : List Nat
  slice_ref : Option (List Nat)

instance : RustIterator OwnedOnce where
  next it := some (it.slice, { it with slice_ref := some it.slice })

/-- `std::iter::Chain`: drains iterator `a`, then iterator `b`. -/
structure ChainIter (α β : Type) : Type where
  a : Option α
  b : Option β

instance {α β : Type} [RustIterator α] [RustIterator β] :
    RustIterator (ChainIter α β) where
  next it :=
    match it.a with
    | some ia =>
      match RustIterator.next ia with
      | some (s, ia') => some (s, ⟨some ia', it.b⟩)
      | none =>
        match it.b with
        | some ib =>
          match RustIterator.next ib with
          | some (s, ib') => some (s, ⟨none, some ib'⟩)
          | none => none
        | none => none
    | none =>
      match it.b with
      | some ib =>
        match RustIterator.next ib with
        | some (s, ib') => some (s, ⟨none, some ib'⟩)
        | none => none
      | none => none

/-- The `Digestable` trait: expose the value as an iterator of byte spans. -/
class Digestable (α : Type) (ι : outParam Type) [RustIterator ι] where
  digestable : α → ι

/-- Rust `String`, modelled by its UTF-8 bytes (`String::as_bytes`). -/
structure RustString : Type where
  bytes : List Nat
deriving DecidableEq

/-- `impl Digestable for String`: `iter::once(self.as_bytes())`. -/
instance : Digestable RustString OnceIter where
  digestable s := ⟨some s.bytes⟩

/-- Rust `f64`, modelled by its IEEE-754 bit pattern (below `2^64`);
`to_be_bytes` is the big-endian byte image of that pattern. -/
structure F64 : Type where
  bits : Nat
deriving DecidableEq

/-- `f64::to_be_bytes`. -/
def F64.to_be_bytes (v : F64) : List Nat := beBytes8 v.bits

/-- `impl Digestable for f64`: an `OwnedOnce` over `self.to_be_bytes()`,
with `slice_ref` initially `None`. -/
instance : Digestable F64 OwnedOnce where
  digestable v := ⟨v.to_be_bytes, none⟩

/-- `impl Digestable for (A, B)`:
`self.0.digestable().chain(self.1.digestable())`. -/
instance {α β ια ιβ : Type} [RustIterator ια] [RustIterator ιβ]
    [Digestable α ια] [Digestable β ιβ] :
    Digestable (α × β) (ChainIter ια ιβ) where
  digestable p := ⟨some (Digestable.digestable p.1), some (Digestable.digestable p.2)⟩

/-! ### The digest engine

`from_digestable` runs `for v in val.digestable() { hasher.update(v) }` and
finalizes.  The streaming SHA-256 accumulator is modelled at its interface:
`update` appends bytes, `finalize` is `sha256` of everything accumulated.
The loop gets explicit fuel; `none` means it did not finish within `fuel`
calls to `next`. -/

/-- Run the update loop: consume up to `fuel` iterator steps, accumulating
the bytes fed to the hasher; `none` if the iterator is still not exhausted. -/
def runUpdates {σ : Type} [RustIterator σ] : Nat → σ → List Nat → Option (List Nat)
  | 0, _, _ => none
  | fuel + 1, it, acc =>
    match RustIterator.next it with
    | none => some acc
    | some (s, it') => runUpdates fuel it' (acc ++ s)

/-- `DigestSha256::from_digestable`, with explicit loop fuel. -/
def DigestSha256.from_digestable {α ι : Type} [RustIterator ι] [Digestable α ι]
    (fuel : Nat) (v : α) : Option DigestSha256 :=
  (runUpdates fuel (Digestable.digestable v) []).map (fun bs => ⟨sha256 bs⟩)

/-- The first `n` spans an iterator yields (fewer if it ends earlier). -/
def takeSpans {σ : Type} [RustIterator σ] : Nat → σ → List (List Nat)
  | 0, _ => []
  | n + 1, it =>
    match RustIterator.next it with
    | none => []
    | some (s, it') => s :: takeSpans n it'

/-- The empty Rust string `""`. -/
def emptyString : RustString := ⟨[]⟩

/-- `0.0003_f64`: IEEE-754 bit pattern `0x3f33a92a30553261`. -/
def f64_0_0003 : F64 := ⟨0x3f33a92a30553261⟩

/-- `0.003_f64`: IEEE-754 bit pattern `0x3f689374bc6a7efa`. -/
def f64_0_003 : F64 := ⟨0x3f689374bc6a7efa⟩

/-- `0.0_f64`: IEEE-754 bit pattern `0`. -/
def f64_pos_zero : F64 := ⟨0⟩

/-- `-0.0_f64`: IEEE-754 bit pattern `0x8000000000000000`. -/
def f64_neg_zero : F64 := ⟨0x8000000000000000⟩

/-- A quiet-NaN bit pattern, `0x7ff8000000000000`. -/
def f64_nan1 : F64 := ⟨0x7ff8000000000000⟩

/-- A distinct NaN bit pattern, `0x7ff8000000000001`. -/
def f64_nan2 : F64 := ⟨0x7ff8000000000001⟩

/-! ### Hex encoding (for the textual round-trip)

Modelled from the spec: the hex codec is an external collaborator with
`encode(bytes) -> string`; `encode` is not called in the source, so it is
modelled from the spec's interface description as the usual lowercase
hexadecimal encoding (two digits per byte, most significant nibble first). -/

/-- The lowercase hex digit (as an ASCII byte) for a nibble. -/
def hexDigit (n : Nat) : Nat := if n < 10 then 48 + n else 97 + n - 10

/-- Modelled from the spec: `encode(bytes) -> string`, lowercase hex. -/
def encodeHex : List Nat → List Nat
  | [] => []
  | b :: bs => hexDigit (b / 16) :: hexDigit (b % 16) :: encodeHex bs

/-- ASCII uppercasing of a byte string; agrees with Rust's
`str::to_uppercase` on hex-digit characters. -/
def toUpperBytes (s : List Nat) : List Nat :=
  s.map (fun b => if 97 ≤ b ∧ b ≤ 122 then b - 32 else b)

/-- The sixteen ASCII bytes of lowercase hex digits. -/
def lowerHexBytes : List Nat :=
  [48, 49, 50, 51, 52, 53, 54, 55, 56, 57, 97, 98, 99, 100, 101, 102]

/-- A byte is an ASCII character in `[0-9A-Fa-f]`. -/
def isHexDigitByte (c : Nat) : Prop :=
  (48 ≤ c ∧ c ≤ 57) ∨ (65 ≤ c ∧ c ≤ 70) ∨ (97 ≤ c ∧ c ≤ 102)

/-- The string `"foo"` as a Rust `String` value. -/
def fooString : RustString := ⟨asciiBytes "foo"⟩

/-- The 32 bytes of the SHA-256 digest of the empty byte string. -/
def shaEmptyBytes : List Nat :=
  [227, 176, 196, 66, 152, 252, 28, 20, 154, 251, 244, 200, 153, 111, 185, 36,
   39, 174, 65, 228, 100, 155, 147, 76, 164, 149, 153, 27, 120, 82, 184, 85]

/-- The 64 hex characters of the SHA-256 digest of the empty byte string. -/
def shaEmptyHex : List Nat :=
  asciiBytes "e3b0c44298fc1c149afbf4c8996fb92427ae41e4649b934ca495991b7852b855"

/-! ### Lemmas about hex decoding -/

theorem hexVal_isSome_iff (c : Nat) : (hexVal c).isSome = true ↔ isHexDigitByte c := by
  unfold hexVal isHexDigitByte
  split
  · simp; omega
  · split
    · simp; omega
    · split
      · simp; omega
      · simp; omega

theorem hexVal_hexDigit (n : Nat) (h : n < 16) : hexVal (hexDigit n) = some n := by
  interval_cases n <;> rfl

theorem encodeHex_length (bs : List Nat) : (encodeHex bs).length = 2 * bs.length := by
  induction bs with
  | nil => rfl
  | cons b bs ih => simp [encodeHex, ih]; omega

theorem decodePairs_encodeHex (bs : List Nat) (i : Nat) (hb : ∀ b ∈ bs, b < 256) :
    decodePairs (encodeHex bs) i = .ok bs := by
  induction bs generalizing i with
  | nil => rfl
  | cons b bs ih =>
    have hb0 : b < 256 := hb b (List.mem_cons_self b bs)
    have h1 : hexVal (hexDigit (b / 16)) = some (b / 16) := hexVal_hexDigit _ (by omega)
    have h2 : hexVal (hexDigit (b % 16)) = some (b % 16) := hexVal_hexDigit _ (by omega)
    have hrest : decodePairs (encodeHex bs) (i + 2) = .ok bs :=
      ih (i + 2) (fun c hc => hb c (List.mem_cons_of_mem b hc))
    simp [encodeHex, decodePairs, h1, h2, hrest, Except.map]
    omega

theorem decodePairs_ok_iff (n : Nat) : ∀ (s : List Nat) (i : Nat), s.length ≤ n →
    ((∃ bs, decodePairs s i = .ok bs) ↔
      (s.length % 2 = 0 ∧ ∀ c ∈ s, (hexVal c).isSome = true)) := by
  induction n with
  | zero =>
    intro s i hs
    have hnil : s = [] := List.eq_nil_of_length_eq_zero (Nat.le_zero.1 hs)
    subst hnil
    simp [decodePairs]
  | succ n ih =>
    intro s i hs
    rcases s with _ | ⟨c1, _ | ⟨c2, rest⟩⟩
    · simp [decodePairs]
    · simp [decodePairs]
    · have hrest := ih rest (i + 2) (by simp at hs ⊢; omega)
      cases h1 : hexVal c1 with
      | none => simp [decodePairs, h1]
      | some hi =>
        cases h2 : hexVal c2 with
        | none => simp [decodePairs, h1, h2]
        | some lo =>
          cases hr : decodePairs rest (i + 2) with
          | error e =>
            have hno : ¬(rest.length % 2 = 0 ∧ ∀ c ∈ rest, (hexVal c).isSome = true) := by
              rw [← hrest]; simp [hr]
            simp [decodePairs, h1, h2, hr, Except.map, Nat.add_mod]
            intro hmod
            have h3 : ¬∀ c ∈ rest, (hexVal c).isSome = true :=
              fun hall => hno ⟨by omega, hall⟩
            push_neg at h3
            obtain ⟨c, hc, hne⟩ := h3
            cases hval : hexVal c with
            | none => exact ⟨c, hc, hval⟩
            | some v => rw [hval] at hne; simp at hne
          | ok bs =>
            have hyes : rest.length % 2 = 0 ∧ ∀ c ∈ rest, (hexVal c).isSome = true :=
              hrest.1 ⟨bs, hr⟩
            simp [decodePairs, h1, h2, hr, Except.map, Nat.add_mod, hyes.2]
            exact ⟨by have := hyes.1; omega, hyes.2⟩

/-- The byte-level uppercasing step used by `toUpperBytes`. -/
def toUpperByte (b : Nat) : Nat := if 97 ≤ b ∧ b ≤ 122 then b - 32 else b

theorem toUpperBytes_eq_map (s : List Nat) : toUpperBytes s = s.map toUpperByte := rfl

theorem hexVal_toUpperByte : ∀ c ∈ lowerHexBytes, hexVal (toUpperByte c) = hexVal c := by
  decide

theorem lowerHex_isSome : ∀ c ∈ lowerHexBytes, (hexVal c).isSome = true := by
  decide

theorem decodePairs_toUpper (n : Nat) : ∀ (s : List Nat) (i : Nat), s.length ≤ n →
    s.length % 2 = 0 → (∀ c ∈ s, c ∈ lowerHexBytes) →
    decodePairs (toUpperBytes s) i = decodePairs s i := by
  induction n with
  | zero =>
    intro s i hs _ _
    have hnil : s = [] := List.eq_nil_of_length_eq_zero (Nat.le_zero.1 hs)
    subst hnil
    rfl
  | succ n ih =>
    intro s i hs heven hlow
    rcases s with _ | ⟨c1, _ | ⟨c2, rest⟩⟩
    · rfl
    · simp at heven
    · have hc1 : c1 ∈ lowerHexBytes := hlow c1 (by simp)
      have hc2 : c2 ∈ lowerHexBytes := hlow c2 (by simp)
      have hrest : decodePairs (toUpperBytes rest) (i + 2) = decodePairs rest (i + 2) :=
        ih rest (i + 2) (by simp at hs ⊢; omega) (by simp at heven ⊢; omega)
          (fun c hc => hlow c (by simp [hc]))
      obtain ⟨v1, hv1⟩ := Option.isSome_iff_exists.1 (lowerHex_isSome c1 hc1)
      obtain ⟨v2, hv2⟩ := Option.isSome_iff_exists.1 (lowerHex_isSome c2 hc2)
      show decodePairs (toUpperByte c1 :: toUpperByte c2 :: toUpperBytes rest) i = _
      simp only [decodePairs, hexVal_toUpperByte c1 hc1, hexVal_toUpperByte c2 hc2,
        hv1, hv2, hrest]

/-! ### Lemmas about the iterator model and the digest engine -/

theorem runUpdates_ownedOnce_none (fuel : Nat) :
    ∀ (it : OwnedOnce) (acc : List Nat), runUpdates fuel it acc = none := by
  induction fuel with
  | zero => intro it acc; rfl
  | succ n ih => intro it acc; exact ih ⟨it.slice, some it.slice⟩ (acc ++ it.slice)

theorem runUpdates_chain_owned_none (fuel : Nat) :
    ∀ (ow : OwnedOnce) (acc : List Nat),
      runUpdates fuel (⟨none, some ow⟩ : ChainIter OnceIter OwnedOnce) acc = none := by
  induction fuel with
  | zero => intro ow acc; rfl
  | succ n ih =>
    intro ow acc
    exact ih ⟨ow.slice, some ow.slice⟩ (acc ++ ow.slice)

theorem runUpdates_chain_spent_owned_none (fuel : Nat) (ow : OwnedOnce) (acc : List Nat) :
    runUpdates fuel (⟨some ⟨none⟩, some ow⟩ : ChainIter OnceIter OwnedOnce) acc = none := by
  cases fuel with
  | zero => rfl
  | succ n => exact runUpdates_chain_owned_none n ⟨ow.slice, some ow.slice⟩ (acc ++ ow.slice)

theorem runUpdates_chain_str_owned_none (fuel : Nat) (bs : List Nat) (ow : OwnedOnce)
    (acc : List Nat) :
    runUpdates fuel (⟨some ⟨some bs⟩, some ow⟩ : ChainIter OnceIter OwnedOnce) acc = none := by
  cases fuel with
  | zero => rfl
  | succ n => exact runUpdates_chain_spent_owned_none n ow (acc ++ bs)

theorem from_digestable_f64_none (fuel : Nat) (v : F64) :
    DigestSha256.from_digestable fuel v = none := by
  show (runUpdates fuel (⟨v.to_be_bytes, none⟩ : OwnedOnce) []).map _ = none
  rw [runUpdates_ownedOnce_none]
  rfl

theorem from_digestable_str_f64_none (fuel : Nat) (s : RustString) (v : F64) :
    DigestSha256.from_digestable fuel (s, v) = none := by
  show (runUpdates fuel
    (⟨some ⟨some s.bytes⟩, some ⟨v.to_be_bytes, none⟩⟩ : ChainIter OnceIter OwnedOnce) []).map _
      = none
  rw [runUpdates_chain_str_owned_none]
  rfl

theorem takeSpans_ownedOnce_length (n : Nat) :
    ∀ it : OwnedOnce, (takeSpans n it).length = n := by
  induction n with
  | zero => intro it; rfl
  | succ k ih =>
    intro it
    show (it.slice :: takeSpans k (OwnedOnce.mk it.slice (some it.slice))).length = k + 1
    rw [List.length_cons, ih]

theorem runUpdates_unique {σ : Type} [RustIterator σ] (fuel₁ : Nat) :
    ∀ (fuel₂ : Nat) (it : σ) (acc b₁ b₂ : List Nat),
      runUpdates fuel₁ it acc = some b₁ → runUpdates fuel₂ it acc = some b₂ → b₁ = b₂ := by
  induction fuel₁ with
  | zero =>
    intro fuel₂ it acc b₁ b₂ h₁ _
    exact absurd h₁ (by simp [runUpdates])
  | succ n ih =>
    intro fuel₂ it acc b₁ b₂ h₁ h₂
    cases fuel₂ with
    | zero => exact absurd h₂ (by simp [runUpdates])
    | succ m =>
      cases hnext : RustIterator.next it with
      | none =>
        simp only [runUpdates, hnext, Option.some.injEq] at h₁ h₂
        rw [← h₁, ← h₂]
      | some p =>
        simp only [runUpdates, hnext] at h₁ h₂
        exact ih m p.2 (acc ++ p.1) b₁ b₂ h₁ h₂

theorem runUpdates_string (fuel : Nat) (s : RustString) :
    runUpdates (fuel + 2) (Digestable.digestable s) [] = some s.bytes := rfl

theorem runUpdates_pair_strings (n : Nat) (a b : RustString) :
    runUpdates (n + 3) (Digestable.digestable (a, b)) [] = some (a.bytes ++ b.bytes) := rfl

theorem runUpdates_nested_left (n : Nat) (a b c : RustString) :
    runUpdates (n + 4) (Digestable.digestable ((a, b), c)) [] =
      some (a.bytes ++ b.bytes ++ c.bytes) := rfl

theorem runUpdates_nested_right (n : Nat) (a b c : RustString) :
    runUpdates (n + 4) (Digestable.digestable (a, (b, c))) [] =
      some (a.bytes ++ b.bytes ++ c.bytes) := rfl

theorem from_digestable_pair_strings (fuel : Nat) (h : 3 ≤ fuel) (a b : RustString) :
    DigestSha256.from_digestable fuel (a, b) =
      some ⟨sha256 (a.bytes ++ b.bytes)⟩ := by
  obtain ⟨n, rfl⟩ : ∃ n, fuel = n + 3 := ⟨fuel - 3, by omega⟩
  unfold DigestSha256.from_digestable
  rw [runUpdates_pair_strings n a b]
  rfl

theorem from_digestable_pair_strings_short (fuel : Nat) (h : fuel < 3) (a b : RustString) :
    DigestSha256.from_digestable fuel (a, b) = none := by
  interval_cases fuel <;> rfl

theorem from_digestable_nested_left (fuel : Nat) (h : 4 ≤ fuel) (a b c : RustString) :
    DigestSha256.from_digestable fuel ((a, b), c) =
      some ⟨sha256 (a.bytes ++ b.bytes ++ c.bytes)⟩ := by
  obtain ⟨n, rfl⟩ : ∃ n, fuel = n + 4 := ⟨fuel - 4, by omega⟩
  unfold DigestSha256.from_digestable
  rw [runUpdates_nested_left n a b c]
  rfl

theorem from_digestable_nested_left_short (fuel : Nat) (h : fuel < 4) (a b c : RustString) :
    DigestSha256.from_digestable fuel ((a, b), c) = none := by
  interval_cases fuel <;> rfl

theorem from_digestable_nested_right (fuel : Nat) (h : 4 ≤ fuel) (a b c : RustString) :
    DigestSha256.from_digestable fuel (a, (b, c)) =
      some ⟨sha256 (a.bytes ++ b.bytes ++ c.bytes)⟩ := by
  obtain ⟨n, rfl⟩ : ∃ n, fuel = n + 4 := ⟨fuel - 4, by omega⟩
  unfold DigestSha256.from_digestable
  rw [runUpdates_nested_right n a b c]
  rfl

theorem from_digestable_nested_right_short (fuel : Nat) (h : fuel < 4) (a b c : RustString) :
    DigestSha256.from_digestable fuel (a, (b, c)) = none := by
  interval_cases fuel <;> rfl

/-! ### The claims -/

/-- C1: the spec states that every built-in byte-span sequence (String, f64,
tuple) is finite and that `compute` (`DigestSha256::from_digestable`) always
terminates with a Digest.  The code violates this for f64: `OwnedOnce::next`
unconditionally returns `Some(&self.slice)`, so on the value `0.0003_f64`
the update loop never finishes — no fuel makes `from_digestable` return a
digest. -/
theorem c1_compute_f64_never_terminates :
    ∀ fuel : Nat, DigestSha256.from_digestable fuel f64_0_0003 = none :=
  fun fuel => from_digestable_f64_none fuel f64_0_0003

/-- C2: the claim says a scalar's span sequence has exactly one element, the
scalar's canonical encoding.  For `0.0003_f64` every span the code produces
is indeed the 8-byte big-endian encoding, but the sequence never ends: its
first two spans both exist (and equal `to_be_bytes`), and for every `n` the
sequence has at least `n` spans — not exactly one. -/
theorem c2_f64_sequence_not_single :
    takeSpans 2 (Digestable.digestable f64_0_0003) =
      [f64_0_0003.to_be_bytes, f64_0_0003.to_be_bytes]
    ∧ f64_0_0003.to_be_bytes = [0x3f, 0x33, 0xa9, 0x2a, 0x30, 0x55, 0x32, 0x61]
    ∧ ∀ n : Nat, (takeSpans n (Digestable.digestable f64_0_0003)).length = n :=
  ⟨rfl, by decide, fun n => takeSpans_ownedOnce_length n _⟩

set_option maxRecDepth 1000000 in
/-- C3: `compute` of the empty String `""` returns the well-known SHA-256
digest of the empty byte string (hex `e3b0c4...b855`), for every sufficient
fuel; parsing that hex string yields the same digest value. -/
theorem c3_compute_empty_string :
    (∀ fuel : Nat,
      DigestSha256.from_digestable (fuel + 2) emptyString = some ⟨shaEmptyBytes⟩)
    ∧ DigestSha256.from_str shaEmptyHex = .ok ⟨shaEmptyBytes⟩ := by
  constructor
  · intro fuel
    show some (DigestSha256.mk (sha256 [])) = some (DigestSha256.mk shaEmptyBytes)
    rw [show sha256 [] = shaEmptyBytes from by decide]
  · decide

/-- C4: the pair's span sequence is the first component's spans followed by
the second's — the first two spans of `("foo", 0.003)` are `"foo"`'s bytes
then `0.003`'s big-endian encoding, as claimed — but the claimed equality of
`compute(("foo", 0.003))` with hashing those two spans fails: the f64 half
of the chain yields spans forever, so `from_digestable` never returns. -/
theorem c4_pair_foo_f64_diverges :
    takeSpans 2 (Digestable.digestable (fooString, f64_0_003)) =
      [asciiBytes "foo", f64_0_003.to_be_bytes]
    ∧ ∀ fuel : Nat,
        DigestSha256.from_digestable fuel (fooString, f64_0_003) = none :=
  ⟨rfl, fun fuel => from_digestable_str_f64_none fuel fooString f64_0_003⟩

/-- C5: `DigestSha256::from_str` succeeds exactly on inputs of length 64
whose characters are all hex digits `[0-9a-fA-F]`; in every other case it
returns a `FromHexError`, and the decoded bytes are accepted as-is. -/
theorem c5_from_str_ok_iff (s : List Nat) :
    (∃ d, DigestSha256.from_str s = .ok d) ↔
      (s.length = 64 ∧ ∀ c ∈ s, isHexDigitByte c) := by
  by_cases h2 : s.length % 2 = 0
  · by_cases h32 : s.length / 2 = 32
    · have h64 : s.length = 64 := by omega
      have hdp := decodePairs_ok_iff s.length s 0 le_rfl
      cases hr : decodePairs s 0 with
      | error e =>
        have hno : ¬(s.length % 2 = 0 ∧ ∀ c ∈ s, (hexVal c).isSome = true) := by
          rw [← hdp]; simp [hr]
        have h3 : ¬∀ c ∈ s, (hexVal c).isSome = true := fun hall => hno ⟨h2, hall⟩
        push_neg at h3
        obtain ⟨c, hc, hne⟩ := h3
        simp [DigestSha256.from_str, decode_to_slice, h2, h32, h64, hr, Except.map]
        exact ⟨c, hc, fun hhex => hne ((hexVal_isSome_iff c).2 hhex)⟩
      | ok bs =>
        have hyes : s.length % 2 = 0 ∧ ∀ c ∈ s, (hexVal c).isSome = true :=
          hdp.1 ⟨bs, hr⟩
        simp [DigestSha256.from_str, decode_to_slice, h2, h32, h64, hr, Except.map]
        exact fun c hc => (hexVal_isSome_iff c).1 (hyes.2 c hc)
    · have h64 : ¬ s.length = 64 := by omega
      simp [DigestSha256.from_str, decode_to_slice, h2, h32, h64, Except.map]
  · have h64 : ¬ s.length = 64 := by omega
    simp [DigestSha256.from_str, decode_to_slice, h2, h64, Except.map]

/-- C6: Digest values compare by byte content, and the textual round-trip
holds: hex-encoding a valid 32-byte digest and parsing the result with
`from_str` returns an equal digest. -/
theorem c6_digest_eq_and_round_trip :
    (∀ d₁ d₂ : DigestSha256, d₁ = d₂ ↔ d₁.bytes = d₂.bytes)
    ∧ ∀ d : DigestSha256, d.bytes.length = 32 → (∀ b ∈ d.bytes, b < 256) →
        DigestSha256.from_str (encodeHex d.bytes) = .ok d := by
  constructor
  · intro d₁ d₂
    constructor
    · rintro rfl; rfl
    · intro h; cases d₁; cases d₂; simpa using h
  · intro d h32 hb
    have hlen : (encodeHex d.bytes).length = 64 := by rw [encodeHex_length, h32]
    have hdp : decodePairs (encodeHex d.bytes) 0 = .ok d.bytes :=
      decodePairs_encodeHex d.bytes 0 hb
    cases d with
    | mk bs => simp_all [DigestSha256.from_str, decode_to_slice, Except.map]

/-- C6 witness: the round-trip applied to the concrete digest `e3b0...b855`. -/
theorem c6_round_trip_witness :
    DigestSha256.from_str (encodeHex (DigestSha256.mk shaEmptyBytes).bytes) =
      .ok (DigestSha256.mk shaEmptyBytes) :=
  c6_digest_eq_and_round_trip.2 (DigestSha256.mk shaEmptyBytes) (by decide) (by decide)

/-- C7: case-insensitivity of `from_str`: a valid 64-character lowercase hex
string and its uppercased form both parse successfully to the same digest. -/
theorem c7_from_str_case_insensitive (s : List Nat) (h64 : s.length = 64)
    (hlow : ∀ c ∈ s, c ∈ lowerHexBytes) :
    ∃ d, DigestSha256.from_str s = .ok d ∧
      DigestSha256.from_str (toUpperBytes s) = .ok d := by
  have heven : s.length % 2 = 0 := by omega
  have hhex : ∀ c ∈ s, (hexVal c).isSome = true := fun c hc => lowerHex_isSome c (hlow c hc)
  obtain ⟨bs, hbs⟩ := (decodePairs_ok_iff s.length s 0 le_rfl).2 ⟨heven, hhex⟩
  have hup : decodePairs (toUpperBytes s) 0 = decodePairs s 0 :=
    decodePairs_toUpper s.length s 0 le_rfl heven hlow
  have hulen : (toUpperBytes s).length = 64 := by
    rw [toUpperBytes_eq_map, List.length_map, h64]
  refine ⟨⟨bs⟩, ?_, ?_⟩
  · simp [DigestSha256.from_str, decode_to_slice, h64, hbs, Except.map]
  · simp [DigestSha256.from_str, decode_to_slice, hulen, hup, hbs, Except.map]

/-- C7 witness at the concrete lowercase hex string `e3b0...b855`. -/
theorem c7_case_insensitive_witness :
    ∃ d, DigestSha256.from_str shaEmptyHex = .ok d ∧
      DigestSha256.from_str (toUpperBytes shaEmptyHex) = .ok d :=
  c7_from_str_case_insensitive shaEmptyHex (by decide) (by decide)

/-- C8: determinism of `compute`: for every `Digestable` value, any two
terminating runs of `from_digestable` (any fuels) return equal digests —
re-running the byte-span sequence reproduces the same spans in the same
order, so the accumulated bytes and hence the digest coincide. -/
theorem c8_from_digestable_deterministic {α ι : Type} [RustIterator ι]
    [Digestable α ι] (v : α) (fuel₁ fuel₂ : Nat) (d₁ d₂ : DigestSha256)
    (h₁ : DigestSha256.from_digestable fuel₁ v = some d₁)
    (h₂ : DigestSha256.from_digestable fuel₂ v = some d₂) : d₁ = d₂ := by
  unfold DigestSha256.from_digestable at h₁ h₂
  cases hr₁ : runUpdates fuel₁ (Digestable.digestable v) [] with
  | none => rw [hr₁] at h₁; simp at h₁
  | some b₁ =>
    cases hr₂ : runUpdates fuel₂ (Digestable.digestable v) [] with
    | none => rw [hr₂] at h₂; simp at h₂
    | some b₂ =>
      rw [hr₁] at h₁
      rw [hr₂] at h₂
      simp only [Option.map_some', Option.some.injEq] at h₁ h₂
      rw [← h₁, ← h₂,
        runUpdates_unique fuel₁ fuel₂ (Digestable.digestable v) [] b₁ b₂ hr₁ hr₂]

/-- C8 witness: two runs with different fuels on the empty string agree. -/
theorem c8_deterministic_witness :
    DigestSha256.mk (sha256 []) = DigestSha256.mk (sha256 []) :=
  c8_from_digestable_deterministic emptyString 2 3 (DigestSha256.mk (sha256 []))
    (DigestSha256.mk (sha256 [])) rfl rfl

/-- C9: pair composition is bare span concatenation with no length prefix or
delimiter: string pairs whose concatenations coincide digest equally, and
regrouping nested pairs (`((a, b), c)` versus `(a, (b, c))`) does not change
the digest, at every fuel. -/
theorem c9_concatenation_collision :
    (∀ (fuel : Nat) (a b c d : RustString), a.bytes ++ b.bytes = c.bytes ++ d.bytes →
      DigestSha256.from_digestable fuel (a, b) = DigestSha256.from_digestable fuel (c, d))
    ∧ ∀ (fuel : Nat) (a b c : RustString),
        DigestSha256.from_digestable fuel ((a, b), c) =
          DigestSha256.from_digestable fuel (a, (b, c)) := by
  constructor
  · intro fuel a b c d h
    by_cases h3 : 3 ≤ fuel
    · rw [from_digestable_pair_strings fuel h3 a b,
        from_digestable_pair_strings fuel h3 c d, h]
    · rw [from_digestable_pair_strings_short fuel (by omega) a b,
        from_digestable_pair_strings_short fuel (by omega) c d]
  · intro fuel a b c
    by_cases h4 : 4 ≤ fuel
    · rw [from_digestable_nested_left fuel h4 a b c,
        from_digestable_nested_right fuel h4 a b c]
    · rw [from_digestable_nested_left_short fuel (by omega) a b c,
        from_digestable_nested_right_short fuel (by omega) a b c]

/-- C9 witness: `("ab", "c")` and `("a", "bc")` digest equally at fuel 3. -/
theorem c9_collision_witness :
    DigestSha256.from_digestable 3 (RustString.mk (asciiBytes "ab"), RustString.mk (asciiBytes "c")) =
      DigestSha256.from_digestable 3 (RustString.mk (asciiBytes "a"), RustString.mk (asciiBytes "bc")) :=
  c9_concatenation_collision.1 3 (RustString.mk (asciiBytes "ab"))
    (RustString.mk (asciiBytes "c")) (RustString.mk (asciiBytes "a"))
    (RustString.mk (asciiBytes "bc")) (by decide)

/-- C10: the f64 encoding is the big-endian image of the IEEE-754 bit
pattern, and it is injective on 64-bit patterns, so `0.0` and `-0.0` (and
two distinct NaN patterns) produce different span contents; but the claimed
distinct digests never materialise — `from_digestable` on an f64 returns no
digest at any fuel, because the span sequence never ends. -/
theorem c10_f64_bit_patterns :
    F64.to_be_bytes f64_pos_zero = [0, 0, 0, 0, 0, 0, 0, 0]
    ∧ F64.to_be_bytes f64_neg_zero = [128, 0, 0, 0, 0, 0, 0, 0]
    ∧ F64.to_be_bytes f64_pos_zero ≠ F64.to_be_bytes f64_neg_zero
    ∧ F64.to_be_bytes f64_nan1 ≠ F64.to_be_bytes f64_nan2
    ∧ (∀ v w : F64, v.bits < 2 ^ 64 → w.bits < 2 ^ 64 → v.bits ≠ w.bits →
        F64.to_be_bytes v ≠ F64.to_be_bytes w)
    ∧ ∀ fuel : Nat, DigestSha256.from_digestable fuel f64_pos_zero = none
        ∧ DigestSha256.from_digestable fuel f64_neg_zero = none := by
  refine ⟨by decide, by decide, by decide, by decide, ?_, ?_⟩
  · intro v w hv hw hne heq
    unfold F64.to_be_bytes beBytes8 at heq
    simp only [List.cons.injEq, and_true] at heq
    exact hne (by omega)
  · intro fuel
    exact ⟨from_digestable_f64_none fuel f64_pos_zero,
      from_digestable_f64_none fuel f64_neg_zero⟩

/-- C10 witness: the injectivity of the encoding at the two NaN patterns. -/
theorem c10_f64_witness : F64.to_be_bytes f64_nan1 ≠ F64.to_be_bytes f64_nan2 :=
  c10_f64_bit_patterns.2.2.2.2.1 f64_nan1 f64_nan2 (by decide) (by decide) (by decide)
